import Mathlib

/-!
# Verification of the knowledge-graph link generator

Shallow embedding of the core of `app/api/knowledge-graph/generate-links/route.ts`:
the keyword extractor (`extractKeywords`), the pairwise similarity computation
(`calculateSimilarity`), the capped double comparison loop of the `POST` handler,
the batched persistence step, and the request-parameter defaulting.

Modelling conventions:
* JS strings are Lean `String`s; tokenisation works on the underlying `List Char`,
  with `Char.toLower` matching JS `toLowerCase` on the ASCII range used here.
* JS numbers that carry similarity scores are modelled as `ℚ` (the source only
  adds, divides and compares them; no float rounding is relevant to the claims).
* The JSON value stored in `summary_json` is the inductive `JValue`; a JS
  property access `x?.f` is `getField`, returning `none` for `undefined`.
* A JS `throw` inside the `try` of `extractKeywords` is an `Except.error ()`;
  the surrounding `catch` is the `match` in `extractKeywords` itself.
* The Supabase batch upsert is an oracle `ℕ → BatchOutcome` giving the result
  of each batch write (success, transient error, or "relation does not exist").
-/

/-- JSON-like values, the shape of `summary_json`. `JValue.null` also stands for
JS `null`; an absent property is `Option.none` at the `getField` level. -/
inductive JValue where
  | null : JValue
  | bool : Bool → JValue
  | num : ℚ → JValue
  | str : String → JValue
  | arr : List JValue → JValue
  | obj : List (String × JValue) → JValue

/-- JS optional-chained property access `j?.k`: `none` when `j` is not an object
(or the key is absent), mirroring JS `undefined`. -/
def getField (j : JValue) (k : String) : Option JValue :=
  match j with
  | JValue.obj fields => (fields.find? (fun p => p.1 == k)).map (fun p => p.2)
  | _ => none

/-- The character class `\s` of the source regexes (ASCII whitespace). -/
def isSpaceChar (c : Char) : Bool :=
  c = ' ' || c = '\t' || c = '\n' || c = '\r' || c = '\x0b' || c = '\x0c'

/-- The character class `\w` of the source regex `[^\w\s]`: ASCII letters,
digits, and the underscore. -/
def isWordChar (c : Char) : Bool :=
  c.isAlpha || c.isDigit || c = '_'

/-- The step `.replace(/[^\w\s]/g, ' ')` acting on one character. -/
def normChar (c : Char) : Char :=
  if isWordChar c || isSpaceChar c then c else ' '

/-- Splitting a character list on runs of whitespace (`.split(/\s+/)`), keeping
only non-empty tokens.  The JS split can additionally yield an empty string at
the boundaries; the source immediately filters by `length > 4`, which removes
those empties, so dropping them here is observationally identical. -/
def wordsAux : List Char → List Char → List (List Char)
  | cur, [] => if cur.isEmpty then [] else [cur.reverse]
  | cur, c :: cs =>
    if isSpaceChar c then
      if cur.isEmpty then wordsAux [] cs else cur.reverse :: wordsAux [] cs
    else
      wordsAux (c :: cur) cs

/-- One keyword-extraction step of the source:
`point.toLowerCase().replace(/[^\w\s]/g, ' ').split(/\s+/).filter(w => w.length > 4)`. -/
def tokenize (s : String) : List String :=
  ((wordsAux [] ((s.toList.map Char.toLower).map normChar)).map List.asString).filter
    (fun w => 4 < w.length)

/-- First-occurrence deduplication, `[...new Set(keywords)]`, written with
the already-seen elements accumulated in `seen`. -/
def jsDedupAux (seen : List String) : List String → List String
  | [] => []
  | x :: xs => if x ∈ seen then jsDedupAux seen xs else x :: jsDedupAux (x :: seen) xs

/-- The spread `[...new Set(l)]`. -/
def jsDedup (l : List String) : List String :=
  jsDedupAux [] l

/-- The `commonWords` stop-word set embedded in `extractKeywords`. -/
def commonWords : List String :=
  ["that", "this", "with", "from", "have", "their", "would", "about",
   "there", "which", "could", "other", "these", "those", "being", "should",
   "where", "while", "after", "before", "through", "during", "between"]

/-- The `forEach` over one summary array field: each element gets
`point.toLowerCase()` applied, which throws (`Except.error`) when the element
is not a string; string elements contribute `tokenize` in order. -/
def tokensOfPoints : List JValue → Except Unit (List String)
  | [] => Except.ok []
  | JValue.str s :: rest =>
    match tokensOfPoints rest with
    | Except.ok ts => Except.ok (tokenize s ++ ts)
    | Except.error e => Except.error e
  | _ :: _ => Except.error ()

/-- The raw keyword list of `extractKeywords` before dedup/stop-word/slice:
tokens of `key_points` (when that field is an array) followed by tokens of
`main_ideas` (when that field is an array); `Except.error` models a thrown
`TypeError` from a non-string array element. -/
def rawTokensE (j : JValue) : Except Unit (List String) :=
  let kp : Except Unit (List String) :=
    match getField j "key_points" with
    | some (JValue.arr pts) => tokensOfPoints pts
    | _ => Except.ok []
  match kp with
  | Except.error e => Except.error e
  | Except.ok l1 =>
    match getField j "main_ideas" with
    | some (JValue.arr pts) =>
      match tokensOfPoints pts with
      | Except.error e => Except.error e
      | Except.ok l2 => Except.ok (l1 ++ l2)
    | _ => Except.ok l1

/-- The post-processing `[...new Set(keywords)].filter(w => !commonWords.has(w)).slice(0, 15)`. -/
def postProcess (l : List String) : List String :=
  ((jsDedup l).filter (fun w => decide (w ∉ commonWords))).take 15

/-- The function `extractKeywords(summaryJson)` from the source, including the surrounding
`try { ... } catch { return [] }`. -/
def extractKeywords (j : JValue) : List String :=
  match rawTokensE j with
  | Except.ok l => postProcess l
  | Except.error _ => []

/-- The function `calculateSimilarity(keywords1, keywords2)` from the source: the shared
keywords are `keywords1.filter(k => set2.has(k))` (in `keywords1` order), the
denominator is `new Set([...keywords1, ...keywords2]).size`, and the guarded
division returns `0` when that size is `0`. -/
def calculateSimilarity (keywords1 keywords2 : List String) : List String × ℚ :=
  let sharedKeywords := keywords1.filter (fun k => decide (k ∈ keywords2))
  let totalUniqueKeywords := (jsDedup (keywords1 ++ keywords2)).length
  (sharedKeywords,
    if 0 < totalUniqueKeywords then
      (sharedKeywords.length : ℚ) / (totalUniqueKeywords : ℚ)
    else 0)

/-- An entry of `entriesWithKeywords`: the selected columns of a `knowledgebase`
row plus the computed `keywords`.  `category` is nullable in the database, hence
`Option String`; JS `===` on it is `Option` equality (`null === null` is true). -/
structure EntryK where
  id : String
  title : String
  category : Option String
  keywords : List String
deriving DecidableEq, Repr

/-- A row pushed onto `linksToInsert` by the `POST` handler. -/
structure GraphLink where
  user_id : String
  source_kb_id : String
  target_kb_id : String
  link_type : String
  link_strength : ℚ
  shared_keywords : List String
deriving DecidableEq, Repr

/-- The object pushed for a pair that passed the gate: category boost of `0.1`
for equal categories, strength clamped with `Math.min(similarity + boost, 1.0)`. -/
def mkLink (userId : String) (entry1 entry2 : EntryK) (shared : List String)
    (similarity : ℚ) : GraphLink :=
  let categoryBoost : ℚ := if entry1.category = entry2.category then 1 / 10 else 0
  { user_id := userId
    source_kb_id := entry1.id
    target_kb_id := entry2.id
    link_type := "auto"
    link_strength := min (similarity + categoryBoost) 1
    shared_keywords := shared }

/-- The inner `for (let j = i + 1; ...)` loop of the `POST` handler, for a fixed
`entry1`: `rest` is the tail of entries after `entry1`, `acc` is the
`linksToInsert` accumulated so far, `comparisons` the comparison counter.  The
`break` after reaching `maxLinks` is the early return. -/
def innerLoop (userId : String) (minSimilarity : ℚ) (maxLinks : ℕ) (entry1 : EntryK) :
    List EntryK → List GraphLink → ℕ → List GraphLink × ℕ
  | [], acc, comparisons => (acc, comparisons)
  | entry2 :: rest, acc, comparisons =>
    let comparisons' := comparisons + 1
    let r := calculateSimilarity entry1.keywords entry2.keywords
    if minSimilarity ≤ r.2 ∧ 2 ≤ r.1.length then
      let acc' := acc ++ [mkLink userId entry1 entry2 r.1 r.2]
      if maxLinks ≤ acc'.length then (acc', comparisons')
      else innerLoop userId minSimilarity maxLinks entry1 rest acc' comparisons'
    else innerLoop userId minSimilarity maxLinks entry1 rest acc comparisons'

/-- The outer `for (let i = 0; ...)` loop: run the inner loop for the head
entry against the tail, then `break` when the cap has been reached, otherwise
continue with the tail. -/
def outerLoop (userId : String) (minSimilarity : ℚ) (maxLinks : ℕ) :
    List EntryK → List GraphLink → ℕ → List GraphLink × ℕ
  | [], acc, comparisons => (acc, comparisons)
  | entry1 :: rest, acc, comparisons =>
    let p := innerLoop userId minSimilarity maxLinks entry1 rest acc comparisons
    if maxLinks ≤ p.1.length then p
    else outerLoop userId minSimilarity maxLinks rest p.1 p.2

/-- The whole double loop of the `POST` handler: returns `linksToInsert` and the
final `comparisons` counter. -/
def buildLinks (userId : String) (minSimilarity : ℚ) (maxLinks : ℕ)
    (entries : List EntryK) : List GraphLink × ℕ :=
  outerLoop userId minSimilarity maxLinks entries [] 0

/-- All ordered pairs `(entries[i], entries[j])` with `i < j`, in loop iteration
order (`i` ascending, then `j` ascending). -/
def allPairs : List EntryK → List (EntryK × EntryK)
  | [] => []
  | e :: rest => rest.map (fun e2 => (e, e2)) ++ allPairs rest

/-- Specification-side description of one gate check: the candidate emitted for
a pair, if any.  The gate compares the pre-bonus similarity against the
threshold and requires at least two shared keywords; the category bonus enters
only inside `mkLink`, after the gate. -/
def candidateOf (userId : String) (minSimilarity : ℚ) (p : EntryK × EntryK) :
    Option GraphLink :=
  let r := calculateSimilarity p.1.keywords p.2.keywords
  if minSimilarity ≤ r.2 ∧ 2 ≤ r.1.length then
    some (mkLink userId p.1 p.2 r.1 r.2)
  else none

/-- A `knowledgebase` row as selected by the `POST` handler
(`id, summary_json, category, title`). -/
structure RawEntry where
  id : String
  title : String
  category : Option String
  summary_json : JValue

/-- The map `entries.map(entry => ({ ...entry, keywords: extractKeywords(entry.summary_json) }))`. -/
def toEntryK (e : RawEntry) : EntryK :=
  { id := e.id, title := e.title, category := e.category,
    keywords := extractKeywords e.summary_json }

/-- Outcome of one batch upsert into `knowledge_graph_links`: success, a
transient error, or the "relation ... does not exist" error. -/
inductive BatchOutcome where
  | ok : BatchOutcome
  | transient : BatchOutcome
  | schemaMissing : BatchOutcome
deriving DecidableEq

/-- The batching `linksToInsert.slice(i, i + 100)`: chunks of at most 100 rows. -/
def chunk100 : List GraphLink → List (List GraphLink)
  | [] => []
  | x :: xs => ((x :: xs).take 100) :: chunk100 ((x :: xs).drop 100)
termination_by l => l.length
decreasing_by simp [List.length_drop]; omega

/-- The batch-insert loop: `i` is the index of the current batch in the oracle,
`inserted` the running `insertedCount`.  A transient error is logged and skipped
(`// Continue with other batches even if one fails`); the schema-missing error
returns the 500 response immediately (`Except.error`); a success adds
`batch.length` to the count. -/
def runBatches (oracle : ℕ → BatchOutcome) :
    List (List GraphLink) → ℕ → ℕ → Except Unit ℕ
  | [], _, inserted => Except.ok inserted
  | batch :: rest, i, inserted =>
    match oracle i with
    | BatchOutcome.ok => runBatches oracle rest (i + 1) (inserted + batch.length)
    | BatchOutcome.transient => runBatches oracle rest (i + 1) inserted
    | BatchOutcome.schemaMissing => Except.error ()

/-- Specification-side count: the total number of rows in the batches whose
oracle outcome is a success, starting at batch index `i`. -/
def okRows (oracle : ℕ → BatchOutcome) : List (List GraphLink) → ℕ → ℕ
  | [], _ => 0
  | batch :: rest, i =>
    (if oracle i = BatchOutcome.ok then batch.length else 0) + okRows oracle rest (i + 1)

/-- The JSON bodies the `POST` handler can return after authentication. -/
inductive GenResult where
  | noEntries : (success : Bool) → (linksCreated : ℕ) → (message : String) → GenResult
  | completed : (success : Bool) → (linksCreated : ℕ) → (totalEntries : ℕ) →
      (comparisons : ℕ) → (message : String) → GenResult
  | schemaError : (message : String) → GenResult
deriving DecidableEq

/-- The `POST` handler after authentication and entry fetch: the no-entries
early return, keyword extraction, the capped double loop, and the batched
upsert with its per-batch outcomes. -/
def generateLinks (userId : String) (entries : List RawEntry) (minSimilarity : ℚ)
    (maxLinks : ℕ) (oracle : ℕ → BatchOutcome) : GenResult :=
  if entries.isEmpty then
    GenResult.noEntries true 0 "No knowledge base entries found"
  else
    let entriesWithKeywords := entries.map toEntryK
    let p := buildLinks userId minSimilarity maxLinks entriesWithKeywords
    match runBatches oracle (chunk100 p.1) 0 0 with
    | Except.error _ => GenResult.schemaError "Knowledge graph table not found"
    | Except.ok insertedCount =>
      GenResult.completed true insertedCount entries.length p.2
        ("Successfully generated " ++ toString insertedCount ++ " connections from "
          ++ toString entries.length ++ " entries")

/-- The defaulting `body.minSimilarity || 0.15`: the request-body field modelled as an absent
(`none`, covering `undefined`/`null`) or numeric value; `0` is falsy. -/
def effMinSimilarity (v : Option ℚ) : ℚ :=
  match v with
  | none => 3 / 20
  | some q => if q = 0 then 3 / 20 else q

/-- The defaulting `body.maxLinks || 1000`, same falsiness convention. -/
def effMaxLinks (v : Option ℤ) : ℤ :=
  match v with
  | none => 1000
  | some n => if n = 0 then 1000 else n

/-- Modelled from the spec's words (refinement target for the keyword-extraction
claim, as stated): replace every character that is not a letter, digit, or
whitespace — in particular also the underscore — with a space. -/
def claimNormChar (c : Char) : Char :=
  if c.isAlpha || c.isDigit || isSpaceChar c then c else ' '

/-- The claim-side tokenizer: like `tokenize` but with `claimNormChar`. -/
def tokenizeClaim (s : String) : List String :=
  ((wordsAux [] ((s.toList.map Char.toLower).map claimNormChar)).map List.asString).filter
    (fun w => 4 < w.length)

/-- The keyword list described by the claim, as stated, for summaries whose
`key_points` / `main_ideas` are the string arrays `kp` / `mi`: claim-side
tokens of the key points, then of the main ideas, stop-words removed,
first-occurrence dedup, first 15 kept. -/
def specKeywordsClaim (kp mi : List String) : List String :=
  (jsDedup (((kp.map tokenizeClaim).flatten ++ (mi.map tokenizeClaim).flatten).filter
    (fun w => decide (w ∉ commonWords)))).take 15

/-- The amended keyword description: identical to `specKeywordsClaim` except
that the tokenizer keeps the underscore as a word character, as the source's
`\w` character class does. -/
def specKeywordsAmended (kp mi : List String) : List String :=
  (jsDedup (((kp.map tokenize).flatten ++ (mi.map tokenize).flatten).filter
    (fun w => decide (w ∉ commonWords)))).take 15

/-- The Jaccard coefficient of the two keyword lists read as sets
(specification-side definition for the similarity claim): distinct shared
elements over distinct union elements, `0` for the empty union. -/
def jaccard (k1 k2 : List String) : ℚ :=
  let interCard := ((jsDedup k1).filter (fun k => decide (k ∈ k2))).length
  let unionCard := (jsDedup (k1 ++ k2)).length
  if 0 < unionCard then (interCard : ℚ) / (unionCard : ℚ) else 0

/-- Entry A of the spec's concrete example. -/
def entryA : RawEntry :=
  { id := "A", title := "Entry A", category := some "Technology",
    summary_json := JValue.obj
      [("key_points", JValue.arr [JValue.str "Machine learning models require training"])] }

/-- Entry B of the spec's concrete example. -/
def entryB : RawEntry :=
  { id := "B", title := "Entry B", category := some "Technology",
    summary_json := JValue.obj
      [("key_points", JValue.arr [JValue.str "Training machine learning systems needs data"])] }

/-! ## Helper lemmas -/

theorem jsDedupAux_congr (l : List String) :
    ∀ seen1 seen2 : List String, (∀ y ∈ l, (y ∈ seen1 ↔ y ∈ seen2)) →
      jsDedupAux seen1 l = jsDedupAux seen2 l := by
  induction l with
  | nil => intro seen1 seen2 _; rfl
  | cons x xs ih =>
    intro seen1 seen2 h
    have hx := h x (List.mem_cons_self x xs)
    by_cases hx1 : x ∈ seen1
    · have hx2 : x ∈ seen2 := hx.mp hx1
      simp only [jsDedupAux, if_pos hx1, if_pos hx2]
      exact ih seen1 seen2 (fun y hy => h y (List.mem_cons_of_mem x hy))
    · have hx2 : x ∉ seen2 := fun h2 => hx1 (hx.mpr h2)
      simp only [jsDedupAux, if_neg hx1, if_neg hx2]
      congr 1
      refine ih (x :: seen1) (x :: seen2) (fun y hy => ?_)
      simp only [List.mem_cons]
      rw [h y (List.mem_cons_of_mem x hy)]

theorem jsDedupAux_filter (q : String → Bool) (l : List String) :
    ∀ seen : List String, jsDedupAux seen (l.filter q) = (jsDedupAux seen l).filter q := by
  induction l with
  | nil => intro seen; rfl
  | cons x xs ih =>
    intro seen
    by_cases hq : q x
    · rw [List.filter_cons_of_pos hq]
      by_cases hs : x ∈ seen
      · simp only [jsDedupAux, if_pos hs]
        exact ih seen
      · simp only [jsDedupAux, if_neg hs, List.filter_cons_of_pos hq]
        rw [ih (x :: seen)]
    · rw [List.filter_cons_of_neg hq]
      by_cases hs : x ∈ seen
      · simp only [jsDedupAux, if_pos hs]
        exact ih seen
      · simp only [jsDedupAux, if_neg hs, List.filter_cons_of_neg hq]
        rw [← ih (x :: seen)]
        refine jsDedupAux_congr _ seen (x :: seen) (fun y hy => ?_)
        have hy' : q y = true := (List.mem_filter.mp hy).2
        have hyx : y ≠ x := fun he => hq (he ▸ hy')
        simp [List.mem_cons, hyx]

theorem jsDedup_filter (q : String → Bool) (l : List String) :
    jsDedup (l.filter q) = (jsDedup l).filter q :=
  jsDedupAux_filter q l []

theorem jsDedupAux_of_nodup (l : List String) :
    ∀ seen : List String, l.Nodup → (∀ y ∈ l, y ∉ seen) → jsDedupAux seen l = l := by
  induction l with
  | nil => intro seen _ _; rfl
  | cons x xs ih =>
    intro seen hnd hdisj
    have hx : x ∉ seen := hdisj x (List.mem_cons_self x xs)
    simp only [jsDedupAux, if_neg hx]
    congr 1
    refine ih (x :: seen) (List.Nodup.of_cons hnd) (fun y hy => ?_)
    simp only [List.mem_cons, not_or]
    exact ⟨fun he => (List.nodup_cons.mp hnd).1 (he ▸ hy), hdisj y (List.mem_cons_of_mem x hy)⟩

theorem jsDedup_of_nodup {l : List String} (h : l.Nodup) : jsDedup l = l :=
  jsDedupAux_of_nodup l [] h (by simp)

theorem tokensOfPoints_map_str (pts : List String) :
    tokensOfPoints (pts.map JValue.str) = Except.ok ((pts.map tokenize).flatten) := by
  induction pts with
  | nil => rfl
  | cons p rest ih => simp only [List.map_cons, tokensOfPoints, ih, List.flatten]

theorem tokensOfPoints_error_of_nonstr (pts : List JValue)
    (h : ∃ v ∈ pts, ∀ s, v ≠ JValue.str s) : tokensOfPoints pts = Except.error () := by
  induction pts with
  | nil => obtain ⟨v, hv, _⟩ := h; exact absurd hv (List.not_mem_nil v)
  | cons p rest ih =>
    obtain ⟨v, hv, hne⟩ := h
    cases p with
    | str s =>
      rcases List.mem_cons.mp hv with he | hm
      · exact absurd he (hne s)
      · simp only [tokensOfPoints, ih ⟨v, hm, hne⟩]
    | null => rfl
    | bool b => rfl
    | num q => rfl
    | arr l => rfl
    | obj fs => rfl

/-- Claim C7: the keyword extractor never throws — for every input value
(`null`, non-objects, wrong-typed fields, arrays containing non-strings) the
`catch` degrades the result to the empty keyword list, and a summary whose
fields yield zero raw tokens also produces the empty list. -/
theorem extractKeywords_error_handling :
    (∀ j : JValue, rawTokensE j = Except.error () → extractKeywords j = []) ∧
    (extractKeywords JValue.null = []) ∧
    (∀ b, extractKeywords (JValue.bool b) = []) ∧
    (∀ q, extractKeywords (JValue.num q) = []) ∧
    (∀ s, extractKeywords (JValue.str s) = []) ∧
    (∀ l, extractKeywords (JValue.arr l) = []) ∧
    (∀ (j : JValue) (pts : List JValue), getField j "key_points" = some (JValue.arr pts) →
      (∃ v ∈ pts, ∀ s, v ≠ JValue.str s) → extractKeywords j = []) ∧
    (∀ j : JValue, rawTokensE j = Except.ok [] → extractKeywords j = []) := by
  refine ⟨fun j h => ?_, rfl, fun b => rfl, fun q => rfl, fun s => rfl, fun l => rfl,
    fun j pts hkp hex => ?_, fun j h => ?_⟩
  · unfold extractKeywords
    rw [h]
  · have he := tokensOfPoints_error_of_nonstr pts hex
    simp only [extractKeywords, rawTokensE, hkp, he]
  · unfold extractKeywords
    rw [h]
    rfl

/-- Witness for C7 at a concrete malformed summary: `key_points` is an array
containing the number `1`, so the tokenisation throws and the extractor
returns the empty keyword list. -/
theorem extractKeywords_error_handling_witness :
    rawTokensE (JValue.obj [("key_points", JValue.arr [JValue.num 1])]) = Except.error () ∧
    extractKeywords (JValue.obj [("key_points", JValue.arr [JValue.num 1])]) = [] :=
  ⟨rfl, extractKeywords_error_handling.1 _ rfl⟩

/-- Counterexample to C2 as stated: on the key point `"snake_case"` the source's
`\w` class keeps the underscore, so the code yields the single token
`"snake_case"`, while the claim's "replace every character that is not a
letter, digit, or whitespace" splits it and yields `"snake"`. -/
theorem extractKeywords_claim_counterexample :
    extractKeywords (JValue.obj [("key_points", JValue.arr [JValue.str "snake_case"]),
        ("main_ideas", JValue.arr [])]) = ["snake_case"] ∧
    specKeywordsClaim ["snake_case"] [] = ["snake"] ∧
    extractKeywords (JValue.obj [("key_points", JValue.arr [JValue.str "snake_case"]),
        ("main_ideas", JValue.arr [])]) ≠ specKeywordsClaim ["snake_case"] [] :=
  ⟨by decide, by decide, by decide⟩

/-- Claim C2, amended: for every structured summary whose `key_points` and
`main_ideas` fields are arrays of strings, `extractKeywords` returns exactly
the list obtained by lower-casing, replacing every character that is not a
letter, digit, underscore, or whitespace by a space, splitting on whitespace
runs, keeping tokens longer than 4 characters, appending key-point tokens
before main-idea tokens, removing the stop-word list, deduplicating keeping
first occurrences, and truncating to 15 tokens. -/
theorem extractKeywords_amended (j : JValue) (kp mi : List String)
    (hkp : getField j "key_points" = some (JValue.arr (kp.map JValue.str)))
    (hmi : getField j "main_ideas" = some (JValue.arr (mi.map JValue.str))) :
    extractKeywords j = specKeywordsAmended kp mi := by
  have hraw : rawTokensE j =
      Except.ok ((kp.map tokenize).flatten ++ (mi.map tokenize).flatten) := by
    simp only [rawTokensE, hkp, hmi, tokensOfPoints_map_str]
  unfold extractKeywords
  rw [hraw]
  unfold postProcess specKeywordsAmended
  rw [jsDedup_filter]

/-- Witness for the amended C2 at a concrete two-field summary. -/
theorem extractKeywords_amended_witness :
    getField (JValue.obj
        [("key_points", JValue.arr [JValue.str "Machine learning models require training"]),
         ("main_ideas", JValue.arr [JValue.str "Deep networks generalize widely"])])
      "key_points" =
      some (JValue.arr (["Machine learning models require training"].map JValue.str)) ∧
    getField (JValue.obj
        [("key_points", JValue.arr [JValue.str "Machine learning models require training"]),
         ("main_ideas", JValue.arr [JValue.str "Deep networks generalize widely"])])
      "main_ideas" =
      some (JValue.arr (["Deep networks generalize widely"].map JValue.str)) ∧
    extractKeywords (JValue.obj
        [("key_points", JValue.arr [JValue.str "Machine learning models require training"]),
         ("main_ideas", JValue.arr [JValue.str "Deep networks generalize widely"])]) =
      specKeywordsAmended ["Machine learning models require training"]
        ["Deep networks generalize widely"] :=
  ⟨rfl, rfl, extractKeywords_amended _ _ _ rfl rfl⟩

/-- Counterexample to C4 as stated: for the keyword lists `["a", "a"]` and
`["a"]` the source counts the duplicate in the first list, returning
similarity `2`, while the Jaccard coefficient of the two sets is `1`. -/
theorem calculateSimilarity_jaccard_counterexample :
    (calculateSimilarity ["a", "a"] ["a"]).2 = 2 ∧ jaccard ["a", "a"] ["a"] = 1 ∧
    (calculateSimilarity ["a", "a"] ["a"]).2 ≠ jaccard ["a", "a"] ["a"] := by
  refine ⟨?_, ?_, ?_⟩ <;> simp +decide [calculateSimilarity, jaccard, jsDedup, jsDedupAux]

/-- Claim C4, amended: for every pair of keyword lists whose first list has no
duplicates (which holds for all lists produced by `extractKeywords`),
`calculateSimilarity` returns exactly the Jaccard coefficient — intersection
cardinality over union cardinality — and returns `0` (no division by zero)
when both lists are empty. -/
theorem calculateSimilarity_eq_jaccard (k1 k2 : List String) (h : k1.Nodup) :
    (calculateSimilarity k1 k2).2 = jaccard k1 k2 ∧ (calculateSimilarity [] []).2 = 0 := by
  constructor
  · simp only [calculateSimilarity, jaccard]
    rw [jsDedup_of_nodup h]
  · rfl

/-- Witness for the amended C4 at concrete duplicate-free lists. -/
theorem calculateSimilarity_eq_jaccard_witness :
    (["alpha", "beta"] : List String).Nodup ∧
    ((calculateSimilarity ["alpha", "beta"] ["beta", "gamma"]).2 =
        jaccard ["alpha", "beta"] ["beta", "gamma"] ∧
      (calculateSimilarity [] []).2 = 0) :=
  ⟨by decide, calculateSimilarity_eq_jaccard ["alpha", "beta"] ["beta", "gamma"] (by decide)⟩

theorem calculateSimilarity_snd_nonneg (k1 k2 : List String) :
    0 ≤ (calculateSimilarity k1 k2).2 := by
  simp only [calculateSimilarity]
  split
  · positivity
  · exact le_refl 0

theorem mkLink_strength_bounds (u : String) (e1 e2 : EntryK) (shared : List String)
    (sim : ℚ) (h : 0 ≤ sim) :
    0 ≤ (mkLink u e1 e2 shared sim).link_strength ∧
      (mkLink u e1 e2 shared sim).link_strength ≤ 1 := by
  have hb : (0 : ℚ) ≤ if e1.category = e2.category then 1 / 10 else 0 := by
    split <;> norm_num
  simp only [mkLink]
  exact ⟨le_min (by linarith) (by norm_num), min_le_right _ _⟩

theorem innerLoop_strength_bounds (u : String) (m : ℚ) (k : ℕ) (e1 : EntryK)
    (rest : List EntryK) :
    ∀ (acc : List GraphLink) (c : ℕ),
      (∀ L ∈ acc, 0 ≤ L.link_strength ∧ L.link_strength ≤ 1) →
      ∀ L ∈ (innerLoop u m k e1 rest acc c).1, 0 ≤ L.link_strength ∧ L.link_strength ≤ 1 := by
  induction rest with
  | nil => intro acc c hacc L hL; exact hacc L hL
  | cons e2 rest ih =>
    intro acc c hacc L hL
    have hpush : ∀ L ∈ acc ++ [mkLink u e1 e2 (calculateSimilarity e1.keywords e2.keywords).1
        (calculateSimilarity e1.keywords e2.keywords).2],
        0 ≤ L.link_strength ∧ L.link_strength ≤ 1 := by
      intro L' hL'
      rcases List.mem_append.mp hL' with h' | h'
      · exact hacc L' h'
      · rw [List.mem_singleton] at h'
        subst h'
        exact mkLink_strength_bounds u e1 e2 _ _ (calculateSimilarity_snd_nonneg _ _)
    simp only [innerLoop] at hL
    split at hL
    · split at hL
      · exact hpush L hL
      · exact ih _ _ hpush L hL
    · exact ih _ _ hacc L hL

theorem outerLoop_strength_bounds (u : String) (m : ℚ) (k : ℕ) (es : List EntryK) :
    ∀ (acc : List GraphLink) (c : ℕ),
      (∀ L ∈ acc, 0 ≤ L.link_strength ∧ L.link_strength ≤ 1) →
      ∀ L ∈ (outerLoop u m k es acc c).1, 0 ≤ L.link_strength ∧ L.link_strength ≤ 1 := by
  induction es with
  | nil => intro acc c hacc L hL; exact hacc L hL
  | cons e1 rest ih =>
    intro acc c hacc L hL
    simp only [outerLoop] at hL
    split at hL
    · exact innerLoop_strength_bounds u m k e1 rest acc c hacc L hL
    · exact ih _ _ (innerLoop_strength_bounds u m k e1 rest acc c hacc) L hL

/-- Claim C3: every candidate emitted by the pairwise loop has a
`link_strength` in the closed interval `[0, 1]`, even when the pre-bonus
similarity plus the `0.1` category bonus would exceed `1`. -/
theorem buildLinks_strength_clamped (u : String) (m : ℚ) (k : ℕ) (es : List EntryK) :
    ∀ L ∈ (buildLinks u m k es).1, 0 ≤ L.link_strength ∧ L.link_strength ≤ 1 := by
  intro L hL
  exact outerLoop_strength_bounds u m k es [] 0 (by simp) L hL

/-- Witness for C3 at a concrete pair whose raw Jaccard plus bonus exceeds 1:
identical keyword sets and equal categories give `1 + 0.1`, clamped to `1`. -/
theorem buildLinks_strength_clamped_witness :
    (⟨"u", "1", "2", "auto", 1, ["alpha", "beta"]⟩ : GraphLink) ∈
      (buildLinks "u" 0 10 [⟨"1", "t1", some "Tech", ["alpha", "beta"]⟩,
        ⟨"2", "t2", some "Tech", ["alpha", "beta"]⟩]).1 ∧
    (0 ≤ (⟨"u", "1", "2", "auto", 1, ["alpha", "beta"]⟩ : GraphLink).link_strength ∧
      (⟨"u", "1", "2", "auto", 1, ["alpha", "beta"]⟩ : GraphLink).link_strength ≤ 1) := by
  have hmem : (⟨"u", "1", "2", "auto", 1, ["alpha", "beta"]⟩ : GraphLink) ∈
      (buildLinks "u" 0 10 [⟨"1", "t1", some "Tech", ["alpha", "beta"]⟩,
        ⟨"2", "t2", some "Tech", ["alpha", "beta"]⟩]).1 := by
    norm_num +decide [buildLinks, outerLoop, innerLoop, mkLink, calculateSimilarity,
      jsDedup, jsDedupAux]
  exact ⟨hmem, buildLinks_strength_clamped "u" 0 10 _ _ hmem⟩

theorem innerLoop_eq_take (u : String) (m : ℚ) (k : ℕ) (e1 : EntryK) (rest : List EntryK) :
    ∀ (acc : List GraphLink) (c : ℕ), acc.length < k →
      (innerLoop u m k e1 rest acc c).1 =
        acc ++ (rest.filterMap (fun e2 => candidateOf u m (e1, e2))).take (k - acc.length) := by
  induction rest with
  | nil => intro acc c _; simp [innerLoop]
  | cons e2 rest ih =>
    intro acc c hlt
    by_cases hg : m ≤ (calculateSimilarity e1.keywords e2.keywords).2 ∧
        2 ≤ (calculateSimilarity e1.keywords e2.keywords).1.length
    · have hcand : candidateOf u m (e1, e2) =
          some (mkLink u e1 e2 (calculateSimilarity e1.keywords e2.keywords).1
            (calculateSimilarity e1.keywords e2.keywords).2) := by
        simp only [candidateOf, if_pos hg]
      simp only [List.filterMap_cons, hcand]
      simp only [innerLoop, if_pos hg]
      by_cases hk : k ≤ (acc ++ [mkLink u e1 e2 (calculateSimilarity e1.keywords e2.keywords).1
          (calculateSimilarity e1.keywords e2.keywords).2]).length
      · rw [if_pos hk]
        simp only [List.length_append, List.length_singleton] at hk
        have h1 : k - acc.length = 1 := by omega
        rw [h1]
        simp
      · rw [if_neg hk]
        simp only [List.length_append, List.length_singleton] at hk
        have h2 : (acc ++ [mkLink u e1 e2 (calculateSimilarity e1.keywords e2.keywords).1
            (calculateSimilarity e1.keywords e2.keywords).2]).length < k := by
          simp only [List.length_append, List.length_singleton]; omega
        rw [ih _ (c + 1) h2]
        have h3 : k - acc.length = (k - (acc.length + 1)) + 1 := by omega
        rw [h3, List.take_succ_cons]
        simp only [List.length_append, List.length_singleton, List.append_assoc,
          List.singleton_append]
    · have hcand : candidateOf u m (e1, e2) = none := by
        simp only [candidateOf, if_neg hg]
      simp only [List.filterMap_cons, hcand]
      simp only [innerLoop, if_neg hg]
      exact ih acc (c + 1) hlt

theorem outerLoop_eq_take (u : String) (m : ℚ) (k : ℕ) (es : List EntryK) :
    ∀ (acc : List GraphLink) (c : ℕ), acc.length < k →
      (outerLoop u m k es acc c).1 =
        acc ++ ((allPairs es).filterMap (candidateOf u m)).take (k - acc.length) := by
  induction es with
  | nil => intro acc c _; simp [outerLoop, allPairs]
  | cons e1 rest ih =>
    intro acc c hlt
    have hinner := innerLoop_eq_take u m k e1 rest acc c hlt
    have hsplit : (allPairs (e1 :: rest)).filterMap (candidateOf u m) =
        rest.filterMap (fun e2 => candidateOf u m (e1, e2)) ++
          (allPairs rest).filterMap (candidateOf u m) := by
      simp only [allPairs, List.filterMap_append, List.filterMap_map, Function.comp_def]
    simp only [outerLoop]
    rw [hsplit]
    by_cases hk : k ≤ (innerLoop u m k e1 rest acc c).1.length
    · rw [if_pos hk, hinner]
      rw [hinner] at hk
      simp only [List.length_append, List.length_take] at hk
      have hAlen : k - acc.length ≤
          (rest.filterMap (fun e2 => candidateOf u m (e1, e2))).length := by omega
      rw [List.take_append_of_le_length hAlen]
    · rw [if_neg hk, hinner]
      rw [hinner] at hk
      simp only [List.length_append, List.length_take, not_le] at hk
      have hAlt : (rest.filterMap (fun e2 => candidateOf u m (e1, e2))).length <
          k - acc.length := by omega
      have htakeA : (rest.filterMap (fun e2 => candidateOf u m (e1, e2))).take
          (k - acc.length) = rest.filterMap (fun e2 => candidateOf u m (e1, e2)) :=
        List.take_of_length_le (le_of_lt hAlt)
      rw [htakeA]
      have hlen2 : (acc ++ rest.filterMap (fun e2 => candidateOf u m (e1, e2))).length < k := by
        simp only [List.length_append]; omega
      rw [ih _ _ hlen2]
      rw [List.take_append_eq_append_take, htakeA, ← List.append_assoc]
      congr 2
      simp only [List.length_append]
      omega

theorem buildLinks_eq_take (u : String) (m : ℚ) (k : ℕ) (es : List EntryK) (h : 1 ≤ k) :
    (buildLinks u m k es).1 = ((allPairs es).filterMap (candidateOf u m)).take k := by
  have h0 : ([] : List GraphLink).length < k := by simpa using h
  simpa using outerLoop_eq_take u m k es [] 0 h0

/-- Claim C1: for every pair the loop processes, a candidate is emitted exactly
when the pre-bonus similarity clears the threshold and at least two keywords
are shared — the capped loop output is the iteration-order prefix of the
per-pair gate results — and the `0.1` category bonus enters a candidate's
strength only after this gate, never affecting the gate itself. -/
theorem buildLinks_gate (u : String) (m : ℚ) (k : ℕ) (es : List EntryK) (h : 1 ≤ k) :
    (buildLinks u m k es).1 = ((allPairs es).filterMap (candidateOf u m)).take k ∧
    (∀ e1 e2 : EntryK, (candidateOf u m (e1, e2)).isSome ↔
      (m ≤ (calculateSimilarity e1.keywords e2.keywords).2 ∧
        2 ≤ (calculateSimilarity e1.keywords e2.keywords).1.length)) ∧
    (∀ (e1 e2 : EntryK) (L : GraphLink), candidateOf u m (e1, e2) = some L →
      L.link_strength = min ((calculateSimilarity e1.keywords e2.keywords).2 +
        (if e1.category = e2.category then 1 / 10 else 0)) 1 ∧
      L.shared_keywords = (calculateSimilarity e1.keywords e2.keywords).1) := by
  refine ⟨buildLinks_eq_take u m k es h, fun e1 e2 => ?_, fun e1 e2 L hL => ?_⟩
  · by_cases hg : m ≤ (calculateSimilarity e1.keywords e2.keywords).2 ∧
        2 ≤ (calculateSimilarity e1.keywords e2.keywords).1.length
    · simp [candidateOf, hg]
    · simp [candidateOf, hg]
  · by_cases hg : m ≤ (calculateSimilarity e1.keywords e2.keywords).2 ∧
        2 ≤ (calculateSimilarity e1.keywords e2.keywords).1.length
    · simp only [candidateOf, if_pos hg, Option.some.injEq] at hL
      subst hL
      exact ⟨rfl, rfl⟩
    · simp [candidateOf, hg] at hL

/-- Witness for C1 at a concrete entry list and cap. -/
theorem buildLinks_gate_witness :
    1 ≤ 5 ∧
    (buildLinks "u" 0 5 [⟨"1", "t1", some "Tech", ["alpha", "beta"]⟩,
        ⟨"2", "t2", some "Tech", ["alpha", "beta"]⟩]).1 =
      ((allPairs [⟨"1", "t1", some "Tech", ["alpha", "beta"]⟩,
        ⟨"2", "t2", some "Tech", ["alpha", "beta"]⟩]).filterMap (candidateOf "u" 0)).take 5 :=
  ⟨by norm_num,
    (buildLinks_gate "u" 0 5 [⟨"1", "t1", some "Tech", ["alpha", "beta"]⟩,
      ⟨"2", "t2", some "Tech", ["alpha", "beta"]⟩] (by norm_num)).1⟩

/-- Claim C5: the candidate list never exceeds `maxLinks` entries, and the
break of both loops makes the output exactly the iteration-order prefix
(`i` ascending, then `j` ascending) of the uncapped candidate sequence —
truncation by discovery order, not by strength. -/
theorem buildLinks_cap (u : String) (m : ℚ) (k : ℕ) (es : List EntryK) (h : 1 ≤ k) :
    (buildLinks u m k es).1.length ≤ k ∧
    (buildLinks u m k es).1 = ((allPairs es).filterMap (candidateOf u m)).take k := by
  have he := buildLinks_eq_take u m k es h
  refine ⟨?_, he⟩
  rw [he, List.length_take]
  exact min_le_left _ _

/-- Witness for C5: three mutually similar entries but `maxLinks = 1`; the
loop stops after the first discovered candidate. -/
theorem buildLinks_cap_witness :
    1 ≤ 1 ∧
    ((buildLinks "u" 0 1 [⟨"1", "t1", some "Tech", ["alpha", "beta"]⟩,
        ⟨"2", "t2", some "Tech", ["alpha", "beta"]⟩,
        ⟨"3", "t3", some "Tech", ["alpha", "beta"]⟩]).1.length ≤ 1 ∧
      (buildLinks "u" 0 1 [⟨"1", "t1", some "Tech", ["alpha", "beta"]⟩,
        ⟨"2", "t2", some "Tech", ["alpha", "beta"]⟩,
        ⟨"3", "t3", some "Tech", ["alpha", "beta"]⟩]).1 =
        ((allPairs [⟨"1", "t1", some "Tech", ["alpha", "beta"]⟩,
          ⟨"2", "t2", some "Tech", ["alpha", "beta"]⟩,
          ⟨"3", "t3", some "Tech", ["alpha", "beta"]⟩]).filterMap
            (candidateOf "u" 0)).take 1) :=
  ⟨le_refl 1,
    buildLinks_cap "u" 0 1 [⟨"1", "t1", some "Tech", ["alpha", "beta"]⟩,
      ⟨"2", "t2", some "Tech", ["alpha", "beta"]⟩,
      ⟨"3", "t3", some "Tech", ["alpha", "beta"]⟩] (le_refl 1)⟩

/-- Claim C6: on the spec's concrete example — entry A with key point
"Machine learning models require training", entry B with key point
"Training machine learning systems needs data", both in category
"Technology" — the pipeline emits exactly one link, with shared keywords
`["machine", "learning", "training"]` in A's keyword order and strength
`3/7 + 0.1`, under the default threshold `0.15`. -/
theorem concrete_example_link :
    (buildLinks "u" (3 / 20) 1000 ([entryA, entryB].map toEntryK)).1 =
      [⟨"u", "A", "B", "auto", 3 / 7 + 1 / 10, ["machine", "learning", "training"]⟩] := by
  have hA : toEntryK entryA = ⟨"A", "Entry A", some "Technology",
      ["machine", "learning", "models", "require", "training"]⟩ := by decide
  have hB : toEntryK entryB = ⟨"B", "Entry B", some "Technology",
      ["training", "machine", "learning", "systems", "needs"]⟩ := by decide
  rw [List.map_cons, List.map_cons, List.map_nil, hA, hB]
  norm_num +decide [buildLinks, outerLoop, innerLoop, mkLink, calculateSimilarity,
    jsDedup, jsDedupAux]

theorem chunk100_sum (l : List GraphLink) :
    ((chunk100 l).map List.length).sum = l.length := by
  induction l using chunk100.induct with
  | case1 => simp [chunk100]
  | case2 x xs ih =>
    rw [chunk100]
    simp only [List.map_cons, List.sum_cons, ih, List.length_take, List.length_drop]
    simp only [List.length_cons]
    omega

theorem chunk100_ne_nil (l : List GraphLink) : ∀ b ∈ chunk100 l, b ≠ [] := by
  induction l using chunk100.induct with
  | case1 => simp [chunk100]
  | case2 x xs ih =>
    intro b hb
    rw [chunk100] at hb
    rcases List.mem_cons.mp hb with h | h
    · subst h; simp
    · exact ih b h

theorem runBatches_eq_okRows (oracle : ℕ → BatchOutcome)
    (h : ∀ i, oracle i ≠ BatchOutcome.schemaMissing) (bs : List (List GraphLink)) :
    ∀ i n : ℕ, runBatches oracle bs i n = Except.ok (n + okRows oracle bs i) := by
  induction bs with
  | nil => intro i n; simp [runBatches, okRows]
  | cons b rest ih =>
    intro i n
    rcases ho : oracle i with _ | _ | _
    · simp only [runBatches, okRows, ho, ih, Except.ok.injEq, if_pos]
      omega
    · simp only [runBatches, okRows, ho, ih, Except.ok.injEq]
      simp only [if_neg (by simp : ¬(BatchOutcome.transient = BatchOutcome.ok))]
      omega
    · exact absurd ho (h i)

theorem okRows_le_sum (oracle : ℕ → BatchOutcome) (bs : List (List GraphLink)) :
    ∀ i : ℕ, okRows oracle bs i ≤ (bs.map List.length).sum := by
  induction bs with
  | nil => intro i; simp [okRows]
  | cons b rest ih =>
    intro i
    simp only [okRows, List.map_cons, List.sum_cons]
    have := ih (i + 1)
    split <;> omega

theorem okRows_lt_sum (oracle : ℕ → BatchOutcome) (bs : List (List GraphLink)) :
    ∀ i : ℕ, (∀ b ∈ bs, b ≠ []) →
      (∃ jj, jj < bs.length ∧ oracle (i + jj) = BatchOutcome.transient) →
      okRows oracle bs i < (bs.map List.length).sum := by
  induction bs with
  | nil =>
    intro i _ hex
    obtain ⟨jj, hj, _⟩ := hex
    simp at hj
  | cons b rest ih =>
    intro i hne hex
    obtain ⟨jj, hj, ho⟩ := hex
    simp only [okRows, List.map_cons, List.sum_cons]
    rcases Nat.eq_zero_or_pos jj with h0 | hpos
    · subst h0
      rw [Nat.add_zero] at ho
      have hb : b ≠ [] := hne b (List.mem_cons_self b rest)
      have hbl : 1 ≤ b.length := List.length_pos.mpr hb
      have hle := okRows_le_sum oracle rest (i + 1)
      rw [ho]
      simp only [if_neg (by simp : ¬(BatchOutcome.transient = BatchOutcome.ok))]
      omega
    · obtain ⟨j', rfl⟩ : ∃ j', jj = j' + 1 := ⟨jj - 1, by omega⟩
      have hex' : ∃ t, t < rest.length ∧ oracle ((i + 1) + t) = BatchOutcome.transient := by
        refine ⟨j', by simp at hj; omega, ?_⟩
        rw [show (i + 1) + j' = i + (j' + 1) by omega]
        exact ho
      have := ih (i + 1) (fun b hb => hne b (List.mem_cons_of_mem _ hb)) hex'
      split <;> omega

/-- Claim C9: when no batch hits the schema-missing error, the batch loop
never fails, attempts every batch (also after a transient failure), and the
final inserted count is exactly the total number of rows in the batches that
succeeded — strictly fewer than the generated candidates when a batch failed. -/
theorem runBatches_transient_continue (links : List GraphLink) (oracle : ℕ → BatchOutcome)
    (h : ∀ i, oracle i ≠ BatchOutcome.schemaMissing) :
    runBatches oracle (chunk100 links) 0 0 =
      Except.ok (okRows oracle (chunk100 links) 0) ∧
    ((∃ jj, jj < (chunk100 links).length ∧ oracle jj = BatchOutcome.transient) →
      okRows oracle (chunk100 links) 0 < links.length) := by
  constructor
  · simpa using runBatches_eq_okRows oracle h (chunk100 links) 0 0
  · intro hex
    have hlt := okRows_lt_sum oracle (chunk100 links) 0 (chunk100_ne_nil links)
      (by simpa using hex)
    rwa [chunk100_sum] at hlt

/-- Witness for C9: three candidate rows, one batch, whose write fails
transiently; the loop returns success with zero rows written, fewer than the
three candidates. -/
theorem runBatches_transient_continue_witness :
    runBatches (fun _ => BatchOutcome.transient)
        (chunk100 [⟨"u", "a", "b", "auto", 0, []⟩, ⟨"u", "a", "c", "auto", 0, []⟩,
          ⟨"u", "b", "c", "auto", 0, []⟩]) 0 0 =
      Except.ok (okRows (fun _ => BatchOutcome.transient)
        (chunk100 [⟨"u", "a", "b", "auto", 0, []⟩, ⟨"u", "a", "c", "auto", 0, []⟩,
          ⟨"u", "b", "c", "auto", 0, []⟩]) 0) ∧
    okRows (fun _ => BatchOutcome.transient)
        (chunk100 [⟨"u", "a", "b", "auto", 0, []⟩, ⟨"u", "a", "c", "auto", 0, []⟩,
          ⟨"u", "b", "c", "auto", 0, []⟩]) 0 <
      ([⟨"u", "a", "b", "auto", 0, []⟩, ⟨"u", "a", "c", "auto", 0, []⟩,
          ⟨"u", "b", "c", "auto", 0, []⟩] : List GraphLink).length := by
  have h := runBatches_transient_continue
    [⟨"u", "a", "b", "auto", 0, []⟩, ⟨"u", "a", "c", "auto", 0, []⟩,
      ⟨"u", "b", "c", "auto", 0, []⟩]
    (fun _ => BatchOutcome.transient) (fun i => by simp)
  exact ⟨h.1, h.2 ⟨0, by simp [chunk100], rfl⟩⟩

/-- Claim C8: with zero knowledge-base entries the handler returns the
success result with `linksCreated = 0` and the message
"No knowledge base entries found", and the comparison loop runs zero
comparisons. -/
theorem generateLinks_no_entries (u : String) (m : ℚ) (k : ℕ)
    (oracle : ℕ → BatchOutcome) :
    generateLinks u [] m k oracle =
      GenResult.noEntries true 0 "No knowledge base entries found" ∧
    (buildLinks u m k (([] : List RawEntry).map toEntryK)).2 = 0 :=
  ⟨rfl, rfl⟩

/-- Claim C10: `body.minSimilarity || 0.15` and `body.maxLinks || 1000`
replace every falsy value — absent, `null`, or an explicit `0` — by the
default, so the effective threshold and cap are never `0`. -/
theorem request_defaults (v : Option ℚ) (w : Option ℤ) :
    ((v = none ∨ v = some 0) → effMinSimilarity v = 3 / 20) ∧
    ((w = none ∨ w = some 0) → effMaxLinks w = 1000) ∧
    effMinSimilarity v ≠ 0 ∧ effMaxLinks w ≠ 0 := by
  refine ⟨?_, ?_, ?_, ?_⟩
  · rintro (rfl | rfl) <;> simp [effMinSimilarity]
  · rintro (rfl | rfl) <;> simp [effMaxLinks]
  · cases v with
    | none => norm_num [effMinSimilarity]
    | some q =>
      by_cases hq : q = 0
      · subst hq; norm_num [effMinSimilarity]
      · simp [effMinSimilarity, hq]
  · cases w with
    | none => norm_num [effMaxLinks]
    | some n =>
      by_cases hn : n = 0
      · subst hn; norm_num [effMaxLinks]
      · simp [effMaxLinks, hn]

/-- Witness for C10 at the explicit falsy value `0` for both fields. -/
theorem request_defaults_witness :
    effMinSimilarity (some 0) = 3 / 20 ∧ effMaxLinks (some 0) = 1000 ∧
    effMinSimilarity (some 0) ≠ 0 ∧ effMaxLinks (some 0) ≠ 0 :=
  ⟨(request_defaults (some 0) (some 0)).1 (Or.inr rfl),
   (request_defaults (some 0) (some 0)).2.1 (Or.inr rfl),
   (request_defaults (some 0) (some 0)).2.2.1,
   (request_defaults (some 0) (some 0)).2.2.2⟩
